import Mathlib

/-!
Formal model of the in-process asynchronous task engine implemented in
`src/infrastructure/async-tasks/async-task.service.ts` (class `AsyncTaskService`),
together with theorems checking the engine's specification against this model.

Modelling conventions:
* timestamps and durations are natural numbers of milliseconds (`Date` / `Date.now()`);
* the JS `Map<string, QueuedTask>` registry is a `List QueuedTask` in insertion
  order (JS maps iterate in insertion order); map keys are the task ids, which the
  service keeps unique, so id-uniqueness (`Nodup` of the ids) is carried as an
  explicit hypothesis or invariant where a proof needs it;
* task ids are naturals handed out from a counter (the source builds an opaque
  fresh string from the clock and a random suffix; only freshness matters);
* the task `handler` closure is not stored in the record model - execution is
  modelled separately (`HandlerRun` / `executeWithTimeout`), and the scheduler's
  interleaving at `await` boundaries is modelled by the step relation `Step`.
-/

namespace AsyncTask

/-- `'low' | 'normal' | 'high'` from `TaskOptions.priority`. -/
inductive Priority where
  | low
  | normal
  | high
deriving DecidableEq, Repr

/-- `'pending' | 'running' | 'completed' | 'failed'` from `QueuedTask.status`. -/
inductive Status where
  | pending
  | running
  | completed
  | failed
deriving DecidableEq, Repr

/-- `TaskOptions` (all fields optional at submission). -/
structure TaskOptions where
  delay : Option Nat
  priority : Option Priority
  retries : Option Nat
  retryDelay : Option Nat
  timeout : Option Nat
deriving DecidableEq, Repr

/-- `Required<TaskOptions>`, the normalized options stored on a queued task. -/
structure ReqTaskOptions where
  delay : Nat
  priority : Priority
  retries : Nat
  retryDelay : Nat
  timeout : Nat
deriving DecidableEq, Repr

/-- `QueuedTask` record (without the `handler` closure, see module docstring). -/
structure QueuedTask where
  id : Nat
  name : String
  options : ReqTaskOptions
  createdAt : Nat
  attempts : Nat
  lastAttempt : Option Nat
  nextRetry : Option Nat
  status : Status
deriving DecidableEq, Repr

/-- `FeatureFlags` from `app.types.ts`. -/
structure FeatureFlags where
  cacheEnabled : Bool
  performanceLogging : Bool
  detailedErrors : Bool
  swaggerEnabled : Bool
  healthChecksEnabled : Bool
  asyncTasksEnabled : Bool
deriving DecidableEq, Repr

/-- `SecurityConfig` from `app.types.ts`. -/
structure SecurityConfig where
  cookieSecret : String
  jwtSecret : String
  bcryptRounds : Nat
  rateLimitEnabled : Bool
  corsEnabled : Bool
  helmetEnabled : Bool
deriving DecidableEq, Repr

/-- `MonitoringConfig` from `app.types.ts`. -/
structure MonitoringConfig where
  slowQueryThreshold : Nat
  performanceLogging : Bool
  errorTracking : Bool
  metricsEnabled : Bool
deriving DecidableEq, Repr

/-- `AppConfig` from `app.types.ts` (`env` kept as a string; `prefix` renamed to
`apiPrefix` because `prefix` is a reserved word in Lean). -/
structure AppConfig where
  env : String
  port : Nat
  apiPrefix : String
  name : String
  version : String
  allowedOrigins : List String
  security : SecurityConfig
  features : FeatureFlags
  monitoring : MonitoringConfig
  isProduction : Bool
  isDevelopment : Bool
  isTest : Bool
  isStaging : Bool
deriving DecidableEq, Repr

/-- Per-priority pending counts inside `QueueStats.byPriority`. -/
structure PriorityCounts where
  high : Nat
  normal : Nat
  low : Nat
deriving DecidableEq, Repr

/-- `QueueStats` returned by `getQueueStats`. -/
structure QueueStats where
  total : Nat
  pending : Nat
  running : Nat
  completed : Nat
  failed : Nat
  runningTasks : Nat
  maxConcurrentTasks : Nat
  workers : Nat
  isEnabled : Bool
  byPriority : PriorityCounts
deriving DecidableEq, Repr

/-- The mutable state of one `AsyncTaskService` instance: the registry `Map`,
the hard-coded limit/default fields, the feature flag, the in-flight counter,
the worker-timer count, and the id counter used to model fresh id generation. -/
structure ServiceState where
  tasks : List QueuedTask
  maxConcurrentTasks : Nat
  defaultRetries : Nat
  defaultRetryDelay : Nat
  defaultTimeout : Nat
  isEnabled : Bool
  isShuttingDown : Bool
  runningTasks : Nat
  workers : Nat
  nextId : Nat
deriving DecidableEq, Repr

/-- The 100ms poll tick interval hard-coded in `startWorkers` (`setInterval(..., 100)`). -/
def pollIntervalMs : Nat := 100

/-- The 60s retention of completed records hard-coded in `processNextTask`
(`setTimeout(() => this.tasks.delete(task.id), 60000)`). -/
def completedRetentionMs : Nat := 60000

/-- The constructor: reads only `appConfig?.features?.asyncTasksEnabled ?? false`
from the injected configuration; every other parameter is a hard-coded field
initializer (`maxConcurrentTasks = 5`, `defaultRetries = 3`,
`defaultRetryDelay = 5000`, `defaultTimeout = 30000`). When enabled it starts
`maxConcurrentTasks` interval workers (`startWorkers`). -/
def mkService (cfg : Option AppConfig) : ServiceState :=
  let enabled := (cfg.map (fun c => c.features.asyncTasksEnabled)).getD false
  { tasks := []
    maxConcurrentTasks := 5
    defaultRetries := 3
    defaultRetryDelay := 5000
    defaultTimeout := 30000
    isEnabled := enabled
    isShuttingDown := false
    runningTasks := 0
    workers := if enabled then 5 else 0
    nextId := 0 }

/-- Option normalization in `addTask` (`options.delay ?? 0`, `options.priority ??
'normal'`, `options.retries ?? this.defaultRetries`, etc.). -/
def normalizeOptions (s : ServiceState) (o : TaskOptions) : ReqTaskOptions :=
  { delay := o.delay.getD 0
    priority := o.priority.getD Priority.normal
    retries := o.retries.getD s.defaultRetries
    retryDelay := o.retryDelay.getD s.defaultRetryDelay
    timeout := o.timeout.getD s.defaultTimeout }

/-- The record built by `addTask` before insertion. -/
def newTask (s : ServiceState) (name : String) (o : TaskOptions) (now : Nat) : QueuedTask :=
  { id := s.nextId
    name := name
    options := normalizeOptions s o
    createdAt := now
    attempts := 0
    lastAttempt := none
    nextRetry := none
    status := Status.pending }

/-- The successful branch of `addTask`: insert the new record and consume an id. -/
def admitTask (s : ServiceState) (name : String) (o : TaskOptions) (now : Nat) : ServiceState :=
  { s with tasks := s.tasks ++ [newTask s name o now], nextId := s.nextId + 1 }

/-- `addTask`: throws `Error('Async Task Service is disabled')` when the feature
flag is off, otherwise inserts a pending record and returns its id. -/
def addTask (s : ServiceState) (name : String) (o : TaskOptions) (now : Nat) :
    Except String (Nat × ServiceState) :=
  if s.isEnabled then Except.ok (s.nextId, admitTask s name o now)
  else Except.error "Async Task Service is disabled"

/-- `this.tasks.get(taskId)` on the registry list. -/
def findTask (tasks : List QueuedTask) (taskId : Nat) : Option QueuedTask :=
  tasks.find? (fun t => t.id == taskId)

/-- `getTaskStatus`: `this.tasks.get(taskId) || null`. -/
def getTaskStatus (s : ServiceState) (taskId : Nat) : Option QueuedTask :=
  findTask s.tasks taskId

/-- `this.tasks.delete(taskId)` on the registry list. -/
def deleteTask (tasks : List QueuedTask) (taskId : Nat) : List QueuedTask :=
  tasks.filter (fun t => !(t.id == taskId))

/-- `cancelTask`: returns `false` when the id is unknown or the record is
`running` or `completed`; otherwise deletes the record and returns `true`. -/
def cancelTask (s : ServiceState) (taskId : Nat) : Bool × ServiceState :=
  match findTask s.tasks taskId with
  | none => (false, s)
  | some task =>
    if task.status == Status.running || task.status == Status.completed then (false, s)
    else (true, { s with tasks := deleteTask s.tasks taskId })

/-- `getQueueStats`: an O(n) scan of the registry. -/
def getQueueStats (s : ServiceState) : QueueStats :=
  { total := s.tasks.length
    pending := (s.tasks.filter (fun t => t.status == Status.pending)).length
    running := (s.tasks.filter (fun t => t.status == Status.running)).length
    completed := (s.tasks.filter (fun t => t.status == Status.completed)).length
    failed := (s.tasks.filter (fun t => t.status == Status.failed)).length
    runningTasks := s.runningTasks
    maxConcurrentTasks := s.maxConcurrentTasks
    workers := s.workers
    isEnabled := s.isEnabled
    byPriority :=
      { high := (s.tasks.filter (fun t =>
          t.options.priority == Priority.high && t.status == Status.pending)).length
        normal := (s.tasks.filter (fun t =>
          t.options.priority == Priority.normal && t.status == Status.pending)).length
        low := (s.tasks.filter (fun t =>
          t.options.priority == Priority.low && t.status == Status.pending)).length } }

/-- Predicate for `task.status === 'completed' || task.status === 'failed'`. -/
def isFinished (t : QueuedTask) : Bool :=
  t.status == Status.completed || t.status == Status.failed

/-- `clearCompletedTasks`: collects the finished records and deletes each one by
its id (`toRemove.forEach(([taskId]) => this.tasks.delete(taskId))`), returning
how many were collected. -/
def clearCompletedTasks (s : ServiceState) : Nat × ServiceState :=
  let toRemove := s.tasks.filter isFinished
  let ids := toRemove.map (fun t => t.id)
  (toRemove.length, { s with tasks := s.tasks.filter (fun t => !(ids.contains t.id)) })

/-- `priorityOrder = { high: 3, normal: 2, low: 1 }` in `getNextTask`. -/
def priorityOrder : Priority → Nat
  | Priority.high => 3
  | Priority.normal => 2
  | Priority.low => 1

/-- The eligibility filter of `getNextTask`: `status === 'pending'`, the retry
wait (if any) has elapsed (`nextRetry > now` excludes), and
`createdAt + delay <= now`. -/
def isEligible (now : Nat) (t : QueuedTask) : Bool :=
  t.status == Status.pending &&
  (match t.nextRetry with
   | some r => decide (r ≤ now)
   | none => true) &&
  decide (t.createdAt + t.options.delay ≤ now)

/-- The strict "comes before" order of `getNextTask`'s comparator: higher
priority first, then earlier `createdAt`. -/
def taskBefore (a b : QueuedTask) : Bool :=
  decide (priorityOrder b.options.priority < priorityOrder a.options.priority) ||
  (decide (priorityOrder a.options.priority = priorityOrder b.options.priority) &&
   decide (a.createdAt < b.createdAt))

/-- Head of the stable sort of `getNextTask` (`availableTasks.sort(...)` then
`availableTasks[0]`): the fold keeps the current best and replaces it only by a
strictly better later element, which is exactly the first element of the
stably-sorted array. -/
def pickFirstBest : List QueuedTask → Option QueuedTask
  | [] => none
  | t :: ts => some (ts.foldl (fun best u => if taskBefore u best then u else best) t)

/-- `getNextTask`: filter the eligible pending records, sort by priority then
creation time, return the first (or `null`). -/
def getNextTask (tasks : List QueuedTask) (now : Nat) : Option QueuedTask :=
  pickFirstBest (tasks.filter (isEligible now))

/-- The claim step of `processNextTask` on the selected record: mark `running`,
increment `attempts`, stamp `lastAttempt` (the in-flight counter increment is on
`ServiceState`, see `Step.claim`). -/
def claimTask (t : QueuedTask) (now : Nat) : QueuedTask :=
  { t with status := Status.running, attempts := t.attempts + 1, lastAttempt := some now }

/-- The success branch of `processNextTask`: `task.status = 'completed'`. -/
def applySuccess (t : QueuedTask) : QueuedTask :=
  { t with status := Status.completed }

/-- The catch branch of `processNextTask`: schedule a retry while
`attempts < retries`, else mark permanently `failed`. -/
def applyFailure (t : QueuedTask) (now : Nat) : QueuedTask :=
  if t.attempts < t.options.retries then
    { t with status := Status.pending, nextRetry := some (now + t.options.retryDelay) }
  else
    { t with status := Status.failed }

/-- One failing dispatch of a task, as `processNextTask` performs it when the
handler attempt ends in an error or a timeout: claim, then the catch branch. -/
def failedAttempt (t : QueuedTask) (now : Nat) : QueuedTask :=
  applyFailure (claimTask t now) now

/-- A run of consecutive failing dispatches at the given times. -/
def failRun (t : QueuedTask) : List Nat → QueuedTask
  | [] => t
  | now :: rest => failRun (failedAttempt t now) rest

/-- Behaviour of one invocation of a task handler: it settles `settleAt`
milliseconds after being invoked, with a value or an error. -/
structure HandlerRun (α : Type) where
  settleAt : Nat
  outcome : Except String α
deriving Repr

/-- Observable outcome of `executeWithTimeout` for one attempt. -/
structure WrapperOutcome (α : Type) where
  result : Except String α
  handlerInvocations : Nat
  timerClearedBeforeFire : Bool
deriving Repr

/-- The rejection message of the timeout timer. -/
def timeoutMessage (timeoutMs : Nat) : String :=
  "Task timeout after " ++ toString timeoutMs ++ "ms"

/-- `executeWithTimeout`: invoke the handler once and race it against a
`setTimeout(timeoutMs)` rejection; whichever settles first resolves the promise
(`clearTimeout` runs when the handler settles, so the timer is cleared before
firing exactly when the handler wins). A settlement at the very same
millisecond as the timer is resolved in favour of the timer here; the theorems
below only use the strict cases. -/
def executeWithTimeout {α : Type} (run : HandlerRun α) (timeoutMs : Nat) : WrapperOutcome α :=
  if run.settleAt < timeoutMs then
    { result := run.outcome, handlerInvocations := 1, timerClearedBeforeFire := true }
  else
    { result := Except.error (timeoutMessage timeoutMs)
      handlerInvocations := 1
      timerClearedBeforeFire := false }

/-- One indivisible scheduling mutation of the engine state, i.e. one
synchronous block of `AsyncTaskService` code between `await` suspension points:
task admission; the claim block of `processNextTask` (in-flight check, select,
mark running, bump counter — lines with no `await` between them); the outcome
block after the awaited execution (success, or the catch branch, each followed
by the `finally` counter decrement); cancellation; the bulk purge; and the
delayed deletion of one completed record by the 60s `setTimeout` callback. -/
inductive Step : ServiceState → ServiceState → Prop
  | add (s : ServiceState) (name : String) (o : TaskOptions) (now : Nat)
      (henabled : s.isEnabled = true) :
      Step s (admitTask s name o now)
  | claim (s : ServiceState) (now : Nat) (t : QueuedTask) (l₁ l₂ : List QueuedTask)
      (hroom : s.runningTasks < s.maxConcurrentTasks)
      (hsel : getNextTask s.tasks now = some t)
      (hsplit : s.tasks = l₁ ++ t :: l₂) :
      Step s { s with tasks := l₁ ++ claimTask t now :: l₂,
                      runningTasks := s.runningTasks + 1 }
  | finishSuccess (s : ServiceState) (t : QueuedTask) (l₁ l₂ : List QueuedTask)
      (hsplit : s.tasks = l₁ ++ t :: l₂) (hrun : t.status = Status.running) :
      Step s { s with tasks := l₁ ++ applySuccess t :: l₂,
                      runningTasks := s.runningTasks - 1 }
  | finishFailure (s : ServiceState) (t : QueuedTask) (l₁ l₂ : List QueuedTask) (now : Nat)
      (hsplit : s.tasks = l₁ ++ t :: l₂) (hrun : t.status = Status.running) :
      Step s { s with tasks := l₁ ++ applyFailure t now :: l₂,
                      runningTasks := s.runningTasks - 1 }
  | cancel (s : ServiceState) (taskId : Nat) :
      Step s (cancelTask s taskId).2
  | clearFinished (s : ServiceState) :
      Step s (clearCompletedTasks s).2
  | reap (s : ServiceState) (t : QueuedTask) (l₁ l₂ : List QueuedTask)
      (hsplit : s.tasks = l₁ ++ t :: l₂) (hdone : t.status = Status.completed) :
      Step s { s with tasks := deleteTask s.tasks t.id }

/-- States reachable from a freshly constructed service. -/
inductive Reachable (cfg : Option AppConfig) : ServiceState → Prop
  | init : Reachable cfg (mkService cfg)
  | step {s s' : ServiceState} : Reachable cfg s → Step s s' → Reachable cfg s'

/-- The status transitions the specification allows. -/
def StatusEdge (a b : Status) : Prop :=
  (a = Status.pending ∧ b = Status.running) ∨
  (a = Status.running ∧ (b = Status.completed ∨ b = Status.pending ∨ b = Status.failed))

/-- Eligibility of a record for selection, stated directly: pending, its delay
has elapsed, and its retry wait (if any) has elapsed. -/
def Eligible (now : Nat) (t : QueuedTask) : Prop :=
  t.status = Status.pending ∧
  t.createdAt + t.options.delay ≤ now ∧
  ∀ r, t.nextRetry = some r → r ≤ now

theorem isEligible_iff_Eligible (now : Nat) (t : QueuedTask) :
    isEligible now t = true ↔ Eligible now t := by
  cases h : t.nextRetry <;> simp [isEligible, Eligible, h]
  tauto

theorem taskBefore_irrefl (a : QueuedTask) : taskBefore a a = false := by
  simp [taskBefore]

theorem taskBefore_asymm {a b : QueuedTask} (h : taskBefore a b = true) :
    taskBefore b a = false := by
  simp only [taskBefore, Bool.or_eq_true, Bool.and_eq_true, decide_eq_true_eq,
    Bool.or_eq_false_iff, Bool.and_eq_false_iff, decide_eq_false_iff_not] at h ⊢
  omega

theorem taskBefore_trans {a b c : QueuedTask} (hab : taskBefore a b = true)
    (hbc : taskBefore b c = true) : taskBefore a c = true := by
  simp only [taskBefore, Bool.or_eq_true, Bool.and_eq_true, decide_eq_true_eq] at hab hbc ⊢
  omega

/-- Combined properties of the comparator fold in `pickFirstBest`: the result is
one of the candidates, it is the start value or strictly before it, and no
traversed element is strictly before the result. -/
theorem foldl_best_props (l : List QueuedTask) (b : QueuedTask) :
    (l.foldl (fun best u => if taskBefore u best then u else best) b ∈ b :: l) ∧
    (l.foldl (fun best u => if taskBefore u best then u else best) b = b ∨
      taskBefore (l.foldl (fun best u => if taskBefore u best then u else best) b) b = true) ∧
    (∀ u ∈ l, taskBefore u (l.foldl (fun best u => if taskBefore u best then u else best) b)
      = false) := by
  induction l generalizing b with
  | nil => simp
  | cons x xs ih =>
    simp only [List.foldl_cons]
    by_cases hx : taskBefore x b = true
    · rw [if_pos hx]
      obtain ⟨hmem, hle, hmin⟩ := ih x
      refine ⟨?_, ?_, ?_⟩
      · rcases List.mem_cons.mp hmem with h | h
        · rw [h]; simp
        · simp [h]
      · rcases hle with h | h
        · right; rw [h]; exact hx
        · right; exact taskBefore_trans h hx
      · intro u hu
        rcases List.mem_cons.mp hu with h | h
        · subst h
          rcases hle with h2 | h2
          · rw [h2]; exact taskBefore_irrefl u
          · exact taskBefore_asymm h2
        · exact hmin u h
    · rw [if_neg hx]
      replace hx : taskBefore x b = false := by
        cases h : taskBefore x b
        · rfl
        · exact absurd h hx
      obtain ⟨hmem, hle, hmin⟩ := ih b
      refine ⟨?_, ?_, ?_⟩
      · rcases List.mem_cons.mp hmem with h | h
        · rw [h]; simp
        · simp [h]
      · exact hle
      · intro u hu
        rcases List.mem_cons.mp hu with h | h
        · subst h
          rcases hle with h2 | h2
          · rw [h2]; exact hx
          · cases h3 : taskBefore u
              (xs.foldl (fun best u => if taskBefore u best then u else best) b)
            · rfl
            · have := taskBefore_trans h3 h2
              rw [this] at hx
              exact absurd hx (by simp)
        · exact hmin u h

theorem pickFirstBest_eq_none_iff (l : List QueuedTask) :
    pickFirstBest l = none ↔ l = [] := by
  cases l <;> simp [pickFirstBest]

theorem pickFirstBest_mem {l : List QueuedTask} {b : QueuedTask}
    (h : pickFirstBest l = some b) : b ∈ l := by
  cases l with
  | nil => simp [pickFirstBest] at h
  | cons x xs =>
    simp only [pickFirstBest, Option.some.injEq] at h
    have := (foldl_best_props xs x).1
    rw [h] at this
    exact this

theorem pickFirstBest_min {l : List QueuedTask} {b : QueuedTask}
    (h : pickFirstBest l = some b) : ∀ u ∈ l, taskBefore u b = false := by
  cases l with
  | nil => simp [pickFirstBest] at h
  | cons x xs =>
    simp only [pickFirstBest, Option.some.injEq] at h
    obtain ⟨hmem, hle, hmin⟩ := foldl_best_props xs x
    intro u hu
    rcases List.mem_cons.mp hu with h1 | h1
    · subst h1
      rcases hle with h2 | h2
      · rw [h, h2] at *
        rw [← h2]
        exact taskBefore_irrefl _
      · rw [← h]
        exact taskBefore_asymm h2
    · rw [← h]
      exact hmin u h1

theorem getNextTask_mem {tasks : List QueuedTask} {now : Nat} {t : QueuedTask}
    (h : getNextTask tasks now = some t) : t ∈ tasks ∧ isEligible now t = true := by
  have := pickFirstBest_mem h
  exact ⟨(List.mem_filter.mp this).1, (List.mem_filter.mp this).2⟩

theorem getNextTask_pending {tasks : List QueuedTask} {now : Nat} {t : QueuedTask}
    (h : getNextTask tasks now = some t) : t.status = Status.pending := by
  have := (getNextTask_mem h).2
  rw [isEligible_iff_Eligible] at this
  exact this.1

theorem getNextTask_none_iff (tasks : List QueuedTask) (now : Nat) :
    getNextTask tasks now = none ↔ ∀ t ∈ tasks, isEligible now t = false := by
  rw [getNextTask, pickFirstBest_eq_none_iff, List.filter_eq_nil_iff]
  constructor
  · intro h t ht
    cases h2 : isEligible now t
    · rfl
    · exact absurd h2 (h t ht)
  · intro h t ht
    rw [h t ht]
    simp

theorem getNextTask_min {tasks : List QueuedTask} {now : Nat} {t : QueuedTask}
    (h : getNextTask tasks now = some t) :
    ∀ u ∈ tasks, isEligible now u = true → taskBefore u t = false := by
  intro u hu helig
  exact pickFirstBest_min h u (List.mem_filter.mpr ⟨hu, helig⟩)

theorem failedAttempt_eq_retry {t : QueuedTask} {now : Nat}
    (h : t.attempts + 1 < t.options.retries) :
    failedAttempt t now =
      { t with status := Status.pending, attempts := t.attempts + 1,
               lastAttempt := some now,
               nextRetry := some (now + t.options.retryDelay) } := by
  simp [failedAttempt, claimTask, applyFailure, h]

theorem failedAttempt_eq_fail {t : QueuedTask} {now : Nat}
    (h : ¬ t.attempts + 1 < t.options.retries) :
    failedAttempt t now =
      { t with status := Status.failed, attempts := t.attempts + 1,
               lastAttempt := some now } := by
  simp [failedAttempt, claimTask, applyFailure, h]

theorem failRun_append (t : QueuedTask) (ms : List Nat) (now : Nat) :
    failRun t (ms ++ [now]) = failedAttempt (failRun t ms) now := by
  induction ms generalizing t with
  | nil => rfl
  | cons n rest ih => simpa [failRun] using ih (failedAttempt t n)

/-- While strictly fewer failing dispatches than the configured `retries` have
happened, the record keeps coming back to `pending` and its attempt counter
tracks the number of dispatches; its options are never modified. -/
theorem failRun_stays_pending (ms : List Nat) :
    ∀ t : QueuedTask, t.status = Status.pending →
      t.attempts + ms.length < t.options.retries →
      (failRun t ms).status = Status.pending ∧
      (failRun t ms).attempts = t.attempts + ms.length ∧
      (failRun t ms).options = t.options := by
  induction ms with
  | nil => intro t hp _; exact ⟨hp, by simp [failRun], rfl⟩
  | cons n rest ih =>
    intro t hp hlt
    simp only [List.length_cons] at hlt
    have h1 : t.attempts + 1 < t.options.retries := by omega
    have he := @failedAttempt_eq_retry t n h1
    have := ih (failedAttempt t n) (by rw [he]) (by rw [he]; simp; omega)
    rw [failRun]
    refine ⟨this.1, ?_, ?_⟩
    · rw [this.2.1, he]
      simp
      omega
    · rw [this.2.2, he]

theorem isEligible_of_failed {t : QueuedTask} (h : t.status = Status.failed) (now : Nat) :
    isEligible now t = false := by
  simp [isEligible, h]

/-- C1 (amended): a task admitted with `retries = R` whose every dispatch fails
reaches `failed` after exactly `max R 1` dispatch attempts — one attempt when
`R = 0`, otherwise `R` attempts (not `R + 1`): the catch branch retries only
while `attempts < retries` *after* the claim has already incremented `attempts`.
After each non-final failed attempt (the k-th with `k + 1 < R`) the record is
back to `pending` with `nextRetry = now + retryDelay` (fixed delay, not
exponential), and once `failed` it is never again eligible for selection. -/
theorem retry_exhaustion_spec (t : QueuedTask) (ns : List Nat)
    (hst : t.status = Status.pending) (hat : t.attempts = 0)
    (hlen : ns.length = max t.options.retries 1) :
    (failRun t ns).status = Status.failed ∧
    (failRun t ns).attempts = max t.options.retries 1 ∧
    (∀ m : Nat, isEligible m (failRun t ns) = false) ∧
    (∀ (ms : List Nat) (now : Nat), ms.length + 1 < t.options.retries →
      (failRun t (ms ++ [now])).status = Status.pending ∧
      (failRun t (ms ++ [now])).attempts = ms.length + 1 ∧
      (failRun t (ms ++ [now])).nextRetry = some (now + t.options.retryDelay)) := by
  have hfail : (failRun t ns).status = Status.failed ∧
      (failRun t ns).attempts = max t.options.retries 1 := by
    rcases List.eq_nil_or_concat ns with hnil | ⟨ms, lastn, hconcat⟩
    · rw [hnil] at hlen
      simp at hlen
      omega
    · rw [List.concat_eq_append] at hconcat
      subst hconcat
      rw [List.length_append, List.length_singleton] at hlen
      rw [failRun_append]
      rcases hR : t.options.retries with _ | n
      · have hms : ms = [] := by
          rw [hR] at hlen
          exact List.eq_nil_of_length_eq_zero (by omega)
        subst hms
        have hnolt : ¬ (failRun t []).attempts + 1 < (failRun t []).options.retries := by
          simp [failRun, hat, hR]
        rw [failedAttempt_eq_fail hnolt]
        simp [failRun, hat, hR]
      · have hmslen : ms.length = n := by
          rw [hR] at hlen
          omega
        have hstays := failRun_stays_pending ms t hst (by omega)
        have hnolt : ¬ (failRun t ms).attempts + 1 < (failRun t ms).options.retries := by
          rw [hstays.2.1, hstays.2.2, hat, hR]
          omega
        rw [failedAttempt_eq_fail hnolt]
        refine ⟨rfl, ?_⟩
        simp only []
        rw [hstays.2.1, hat]
        omega
  refine ⟨hfail.1, hfail.2, fun m => isEligible_of_failed hfail.1 m, ?_⟩
  intro ms now hlt
  have hstays := failRun_stays_pending ms t hst (by omega)
  have hlt2 : (failRun t ms).attempts + 1 < (failRun t ms).options.retries := by
    rw [hstays.2.1, hstays.2.2, hat]
    omega
  rw [failRun_append, failedAttempt_eq_retry hlt2]
  refine ⟨rfl, ?_, ?_⟩
  · simp only []
    rw [hstays.2.1, hat]
    omega
  · simp only []
    rw [hstays.2.2]

/-- A concrete freshly admitted task whose configured `retries` is 1. -/
def retryCexTask : QueuedTask :=
  { id := 1
    name := "cex"
    options := { delay := 0, priority := Priority.normal, retries := 1,
                 retryDelay := 5000, timeout := 30000 }
    createdAt := 0
    attempts := 0
    lastAttempt := none
    nextRetry := none
    status := Status.pending }

/-- C1 counterexample: a task with `retries = 1` is `failed` already after its
first failing dispatch attempt (1 attempt), not after `R + 1 = 2` attempts as
the claim states — after one failure it is not set back to `pending`. -/
theorem retry_counterexample :
    retryCexTask.options.retries = 1 ∧
    retryCexTask.status = Status.pending ∧
    retryCexTask.attempts = 0 ∧
    (failedAttempt retryCexTask 100).attempts = 1 ∧
    (failedAttempt retryCexTask 100).status = Status.failed ∧
    ¬ (failedAttempt retryCexTask 100).status = Status.pending := by
  decide

/-- A concrete freshly admitted task with the default `retries = 3`. -/
def retryWitTask : QueuedTask :=
  { id := 2
    name := "wit"
    options := { delay := 0, priority := Priority.normal, retries := 3,
                 retryDelay := 5000, timeout := 30000 }
    createdAt := 0
    attempts := 0
    lastAttempt := none
    nextRetry := none
    status := Status.pending }

theorem retry_exhaustion_spec_witness :
    retryWitTask.status = Status.pending ∧ retryWitTask.attempts = 0 ∧
    ([100, 200, 300] : List Nat).length = max retryWitTask.options.retries 1 ∧
    (failRun retryWitTask [100, 200, 300]).status = Status.failed ∧
    (failRun retryWitTask [100, 200, 300]).attempts = max retryWitTask.options.retries 1 ∧
    (failRun retryWitTask ([50] ++ [200])).status = Status.pending ∧
    (failRun retryWitTask ([50] ++ [200])).nextRetry
      = some (200 + retryWitTask.options.retryDelay) := by
  have h := retry_exhaustion_spec retryWitTask [100, 200, 300] rfl rfl (by decide)
  have h2 := h.2.2.2 [50] 200 (by decide)
  exact ⟨rfl, rfl, by decide, h.1, h.2.1, h2.1, h2.2.2⟩

/-- In a registry with unique ids, the records carrying a present id filter down
to exactly the record `find?` returns for it. -/
theorem filter_id_unique {l : List QueuedTask} {τ : Nat} {t₀ : QueuedTask}
    (hnd : (l.map (fun t => t.id)).Nodup) (hmem : t₀ ∈ l) (hid : t₀.id = τ) :
    l.filter (fun t => t.id == τ) = [t₀] := by
  induction l with
  | nil => simp at hmem
  | cons a xs ih =>
    rw [List.map_cons, List.nodup_cons] at hnd
    rcases List.mem_cons.mp hmem with h | h
    · subst h
      rw [List.filter_cons_of_pos (by simp [hid])]
      have : xs.filter (fun t => t.id == τ) = [] := by
        rw [List.filter_eq_nil_iff]
        intro u hu
        simp only [beq_iff_eq]
        intro hu2
        exact hnd.1 (List.mem_map.mpr ⟨u, hu, by rw [hu2, hid]⟩)
      rw [this]
    · have hane : (a.id == τ) = false := by
        simp only [beq_eq_false_iff_ne, ne_eq]
        intro ha
        exact hnd.1 (by rw [ha, ← hid]; exact List.mem_map.mpr ⟨t₀, h, rfl⟩)
      rw [List.filter_cons_of_neg (by simp [hane])]
      exact ih hnd.2 h

/-- A registry's length splits into the records carrying a given id and the rest. -/
theorem length_filter_id_split (τ : Nat) (l : List QueuedTask) :
    l.length = (l.filter (fun t => t.id == τ)).length +
      (l.filter (fun t => !(t.id == τ))).length := by
  induction l with
  | nil => rfl
  | cons a xs ih =>
    cases ha : (a.id == τ) <;> simp [List.filter_cons, ha] <;> omega

/-- Deleting a present id from a unique-id registry shrinks it by exactly one. -/
theorem length_deleteTask {l : List QueuedTask} {τ : Nat} {t₀ : QueuedTask}
    (hfil : l.filter (fun t => t.id == τ) = [t₀]) :
    (deleteTask l τ).length + 1 = l.length := by
  have hsplit := length_filter_id_split τ l
  rw [hfil] at hsplit
  simp only [List.length_singleton] at hsplit
  show (l.filter (fun t => !(t.id == τ))).length + 1 = l.length
  omega

/-- Filtering away an id whose records do not satisfy `p` leaves the
`p`-filtered registry unchanged. -/
theorem filter_filter_of_none (p : QueuedTask → Bool) (τ : Nat) :
    ∀ l : List QueuedTask, (∀ t ∈ l, t.id = τ → p t = false) →
      (l.filter (fun t => !(t.id == τ))).filter p = l.filter p := by
  intro l
  induction l with
  | nil => intro _; rfl
  | cons a xs ih =>
    intro h
    have hxs := fun t ht => h t (List.mem_cons_of_mem a ht)
    by_cases ha : a.id = τ
    · have hpa : p a = false := h a (List.mem_cons_self a xs) ha
      rw [List.filter_cons_of_neg (by simp [ha]), List.filter_cons_of_neg (by simp [hpa])]
      exact ih hxs
    · rw [List.filter_cons_of_pos (by simp [ha])]
      cases hpa : p a with
      | true =>
        rw [List.filter_cons_of_pos hpa, List.filter_cons_of_pos hpa, ih hxs]
      | false =>
        rw [List.filter_cons_of_neg (by simp [hpa]), List.filter_cons_of_neg (by simp [hpa])]
        exact ih hxs

/-- `filter_filter_of_none`, phrased on `deleteTask`. -/
theorem filter_deleteTask_of_none {l : List QueuedTask} {τ : Nat} {p : QueuedTask → Bool}
    (h : ∀ t ∈ l, t.id = τ → p t = false) :
    (deleteTask l τ).filter p = l.filter p :=
  filter_filter_of_none p τ l h

/-- C2 (amended): `cancelTask` returns `true` exactly when the id is present and
its record is neither `running` nor `completed` — i.e. for `pending` **and
`failed`** records (which it deletes); it returns `false` for `running`,
`completed`, or unknown ids. -/
theorem cancelTask_spec (s : ServiceState) (taskId : Nat) :
    (cancelTask s taskId).1 = true ↔
      ∃ t, findTask s.tasks taskId = some t ∧
        t.status ≠ Status.running ∧ t.status ≠ Status.completed := by
  cases h : findTask s.tasks taskId with
  | none => simp [cancelTask, h]
  | some t =>
    by_cases h1 : t.status = Status.running
    · simp [cancelTask, h, h1]
    · by_cases h2 : t.status = Status.completed
      · simp [cancelTask, h, h1, h2]
      · simp [cancelTask, h, h1, h2]

/-- A concrete permanently failed record. -/
def failedCexTask : QueuedTask :=
  { id := 7
    name := "done"
    options := { delay := 0, priority := Priority.normal, retries := 3,
                 retryDelay := 5000, timeout := 30000 }
    createdAt := 0
    attempts := 3
    lastAttempt := some 10
    nextRetry := none
    status := Status.failed }

/-- A concrete service state holding only `failedCexTask`. -/
def cancelCexState : ServiceState :=
  { tasks := [failedCexTask]
    maxConcurrentTasks := 5
    defaultRetries := 3
    defaultRetryDelay := 5000
    defaultTimeout := 30000
    isEnabled := true
    isShuttingDown := false
    runningTasks := 0
    workers := 5
    nextId := 8 }

/-- C2 counterexample: cancelling the id of a record whose status is `failed`
returns `true` (the guard only rejects `running` and `completed`), while the
claim says it must return `false` for `failed` records. -/
theorem cancel_counterexample :
    getTaskStatus cancelCexState 7 = some failedCexTask ∧
    failedCexTask.status = Status.failed ∧
    (cancelTask cancelCexState 7).1 = true ∧
    ¬ (cancelTask cancelCexState 7).1 = false := by
  decide

/-- C10: whenever `cancelTask` answers `true` on a unique-id registry, the
record is deleted outright (no "cancelled" status exists): a subsequent
`getTaskStatus` for that id yields `none`, no registry record carries the id
any more, the stats `total` drops by exactly one, and the `running` and
`completed` stats are untouched (the deleted record had neither status). -/
theorem cancelTask_deletes (s : ServiceState) (taskId : Nat)
    (hnd : (s.tasks.map (fun t => t.id)).Nodup)
    (h : (cancelTask s taskId).1 = true) :
    getTaskStatus (cancelTask s taskId).2 taskId = none ∧
    (∀ t ∈ (cancelTask s taskId).2.tasks, t.id ≠ taskId) ∧
    (getQueueStats (cancelTask s taskId).2).total + 1 = (getQueueStats s).total ∧
    (getQueueStats (cancelTask s taskId).2).running = (getQueueStats s).running ∧
    (getQueueStats (cancelTask s taskId).2).completed = (getQueueStats s).completed := by
  rcases hf : findTask s.tasks taskId with _ | t₀
  · rw [cancelTask, hf] at h
    simp at h
  · have hmem : t₀ ∈ s.tasks := List.mem_of_find?_eq_some hf
    have hid : t₀.id = taskId := by simpa using List.find?_some hf
    have hguard : (t₀.status == Status.running || t₀.status == Status.completed) = false := by
      cases hg : (t₀.status == Status.running || t₀.status == Status.completed)
      · rfl
      · simp [cancelTask, hf, hg] at h
    have hres : (cancelTask s taskId).2 = { s with tasks := deleteTask s.tasks taskId } := by
      simp [cancelTask, hf, hguard]
    have hfil := filter_id_unique hnd hmem hid
    have huniq : ∀ t ∈ s.tasks, t.id = taskId → t = t₀ := by
      intro t ht hti
      have : t ∈ s.tasks.filter (fun t => t.id == taskId) :=
        List.mem_filter.mpr ⟨ht, by simp [hti]⟩
      rw [hfil] at this
      simpa using this
    have hnotin : ∀ t ∈ deleteTask s.tasks taskId, t.id ≠ taskId := by
      intro t ht
      have := (List.mem_filter.mp ht).2
      simpa using this
    rw [hres]
    refine ⟨?_, hnotin, ?_, ?_, ?_⟩
    · rw [getTaskStatus, findTask, List.find?_eq_none]
      intro t ht
      simpa using hnotin t ht
    · simp only [getQueueStats]
      exact length_deleteTask hfil
    · simp only [getQueueStats]
      refine congrArg List.length (filter_deleteTask_of_none ?_)
      intro t ht hti
      rw [huniq t ht hti]
      simp only [Bool.or_eq_false_iff] at hguard
      simpa using hguard.1
    · simp only [getQueueStats]
      refine congrArg List.length (filter_deleteTask_of_none ?_)
      intro t ht hti
      rw [huniq t ht hti]
      simp only [Bool.or_eq_false_iff] at hguard
      simpa using hguard.2

/-- A concrete service state holding one pending record with id 3. -/
def cancelWitState : ServiceState :=
  { tasks := [{ retryWitTask with id := 3 }]
    maxConcurrentTasks := 5
    defaultRetries := 3
    defaultRetryDelay := 5000
    defaultTimeout := 30000
    isEnabled := true
    isShuttingDown := false
    runningTasks := 0
    workers := 5
    nextId := 4 }

theorem cancelTask_deletes_witness :
    getTaskStatus (cancelTask cancelWitState 3).2 3 = none ∧
    (getQueueStats (cancelTask cancelWitState 3).2).total + 1
      = (getQueueStats cancelWitState).total := by
  have h := cancelTask_deletes cancelWitState 3 (by decide) (by decide)
  exact ⟨h.1, h.2.2.1⟩

theorem taskBefore_eq_false_iff (a b : QueuedTask) :
    taskBefore a b = false ↔
      priorityOrder a.options.priority ≤ priorityOrder b.options.priority ∧
      (priorityOrder a.options.priority = priorityOrder b.options.priority →
        b.createdAt ≤ a.createdAt) := by
  simp only [taskBefore, Bool.or_eq_false_iff, Bool.and_eq_false_iff,
    decide_eq_false_iff_not, not_lt]
  constructor
  · rintro ⟨h1, h2⟩
    refine ⟨h1, fun he => ?_⟩
    rcases h2 with h2 | h2
    · exact absurd he h2
    · exact h2
  · rintro ⟨h1, h2⟩
    refine ⟨h1, ?_⟩
    by_cases he : priorityOrder a.options.priority = priorityOrder b.options.priority
    · exact Or.inr (h2 he)
    · exact Or.inl he

/-- C3: `getNextTask` returns no task exactly when no registry record is
pending and past both its delay and its retry wait; when it returns a task,
that task is a registry record satisfying those eligibility conditions, and
every eligible record has priority at most the returned one's and, at equal
priority, a `createdAt` no earlier — so a `high` task is always returned ahead
of a `normal` one and, within a tier, the earliest-created task wins. -/
theorem getNextTask_spec (tasks : List QueuedTask) (now : Nat) :
    (getNextTask tasks now = none ↔ ∀ t ∈ tasks, ¬ Eligible now t) ∧
    (∀ t : QueuedTask, getNextTask tasks now = some t →
      t ∈ tasks ∧ Eligible now t ∧
      ∀ u ∈ tasks, Eligible now u →
        priorityOrder u.options.priority ≤ priorityOrder t.options.priority ∧
        (priorityOrder u.options.priority = priorityOrder t.options.priority →
          t.createdAt ≤ u.createdAt)) := by
  constructor
  · rw [getNextTask_none_iff]
    constructor
    · intro h t ht he
      have hf := h t ht
      rw [← isEligible_iff_Eligible] at he
      rw [he] at hf
      exact Bool.noConfusion hf
    · intro h t ht
      cases he : isEligible now t
      · rfl
      · exact absurd ((isEligible_iff_Eligible now t).mp he) (h t ht)
  · intro t hsel
    obtain ⟨hmem, helig⟩ := getNextTask_mem hsel
    refine ⟨hmem, (isEligible_iff_Eligible now t).mp helig, ?_⟩
    intro u hu hue
    have hmin := getNextTask_min hsel u hu ((isEligible_iff_Eligible now u).mpr hue)
    exact (taskBefore_eq_false_iff u t).mp hmin

/-- A concrete eligible normal-priority record created at time 0. -/
def demoNormalTask : QueuedTask :=
  { id := 11
    name := "n"
    options := { delay := 0, priority := Priority.normal, retries := 3,
                 retryDelay := 5000, timeout := 30000 }
    createdAt := 0
    attempts := 0
    lastAttempt := none
    nextRetry := none
    status := Status.pending }

/-- A concrete eligible high-priority record created later, at time 5. -/
def demoHighTask : QueuedTask :=
  { id := 12
    name := "h"
    options := { delay := 0, priority := Priority.high, retries := 3,
                 retryDelay := 5000, timeout := 30000 }
    createdAt := 5
    attempts := 0
    lastAttempt := none
    nextRetry := none
    status := Status.pending }

theorem getNextTask_spec_witness :
    getNextTask [demoNormalTask, demoHighTask] 10 = some demoHighTask ∧
    priorityOrder demoNormalTask.options.priority
      ≤ priorityOrder demoHighTask.options.priority := by
  have h := (getNextTask_spec [demoNormalTask, demoHighTask] 10).2 demoHighTask rfl
  exact ⟨rfl, (h.2.2 demoNormalTask (by simp) (by simp [Eligible, demoNormalTask])).1⟩

/-- `find?` on the registry with a fresh record appended finds that record. -/
theorem findTask_append_fresh (l : List QueuedTask) (x : QueuedTask)
    (h : ∀ t ∈ l, t.id ≠ x.id) : findTask (l ++ [x]) x.id = some x := by
  induction l with
  | nil => simp [findTask]
  | cons a xs ih =>
    have ha : (a.id == x.id) = false := by
      simpa using h a (List.mem_cons_self a xs)
    rw [List.cons_append, findTask, List.find?_cons_of_neg _ (by simp [ha])]
    exact ih (fun t ht => h t (List.mem_cons_of_mem a ht))

/-- C5: `addTask` fails with the `ServiceDisabled` error exactly when the
engine is administratively disabled (and `getQueueStats.isEnabled` reflects
the flag); otherwise it returns a fresh id and inserts — without running
anything — a `pending` record with `attempts = 0` and the omitted options
normalized to `delay = 0`, `priority = normal`, `retries = 3`,
`retryDelay = 5000` ms, `timeout = 30000` ms, so that an immediate
`getTaskStatus` on the returned id yields that pending record. -/
theorem addTask_spec (s : ServiceState) (name : String) (o : TaskOptions) (now : Nat)
    (hids : ∀ t ∈ s.tasks, t.id < s.nextId)
    (hdr : s.defaultRetries = 3) (hdrd : s.defaultRetryDelay = 5000)
    (hdt : s.defaultTimeout = 30000) :
    (addTask s name o now = Except.error "Async Task Service is disabled"
      ↔ s.isEnabled = false) ∧
    (getQueueStats s).isEnabled = s.isEnabled ∧
    (∀ (id : Nat) (s' : ServiceState), addTask s name o now = Except.ok (id, s') →
      id = s.nextId ∧ (∀ t ∈ s.tasks, t.id ≠ id) ∧ s'.runningTasks = s.runningTasks ∧
      getTaskStatus s' id = some
        { id := id
          name := name
          options := { delay := o.delay.getD 0, priority := o.priority.getD Priority.normal,
                       retries := o.retries.getD 3, retryDelay := o.retryDelay.getD 5000,
                       timeout := o.timeout.getD 30000 }
          createdAt := now
          attempts := 0
          lastAttempt := none
          nextRetry := none
          status := Status.pending }) := by
  refine ⟨?_, rfl, ?_⟩
  · cases he : s.isEnabled
    · simp [addTask, he]
    · simp [addTask, he]
  · intro id s' hok
    cases he : s.isEnabled
    · rw [addTask, if_neg (by simp [he])] at hok
      exact absurd hok (by simp)
    · rw [addTask, if_pos (by simp [he])] at hok
      obtain ⟨hid, hs'⟩ : id = s.nextId ∧ s' = admitTask s name o now := by
        have := Except.ok.inj hok
        exact ⟨congrArg Prod.fst this.symm, congrArg Prod.snd this.symm⟩
      subst hid
      subst hs'
      have hfresh : ∀ t ∈ s.tasks, t.id ≠ s.nextId :=
        fun t ht => Nat.ne_of_lt (hids t ht)
      refine ⟨rfl, hfresh, rfl, ?_⟩
      have hxid : (newTask s name o now).id = s.nextId := rfl
      have := findTask_append_fresh s.tasks (newTask s name o now)
        (fun t ht => by rw [hxid]; exact hfresh t ht)
      rw [getTaskStatus]
      show findTask (s.tasks ++ [newTask s name o now]) s.nextId = _
      rw [← hxid, this]
      simp [newTask, normalizeOptions, hdr, hdrd, hdt]

/-- Concrete `FeatureFlags` with the async-tasks flag on. -/
def demoFlags : FeatureFlags :=
  { cacheEnabled := true, performanceLogging := false, detailedErrors := false,
    swaggerEnabled := false, healthChecksEnabled := true, asyncTasksEnabled := true }

/-- Concrete `AppConfig` enabling the engine. -/
def demoConfig : AppConfig :=
  { env := "test"
    port := 3000
    apiPrefix := "api"
    name := "app"
    version := "1.0.0"
    allowedOrigins := []
    security := { cookieSecret := "c", jwtSecret := "j", bcryptRounds := 10,
                  rateLimitEnabled := true, corsEnabled := true, helmetEnabled := true }
    features := demoFlags
    monitoring := { slowQueryThreshold := 1000, performanceLogging := false,
                    errorTracking := true, metricsEnabled := true }
    isProduction := false
    isDevelopment := false
    isTest := true
    isStaging := false }

/-- A freshly constructed, enabled service. -/
def demoService : ServiceState := mkService (some demoConfig)

/-- The all-defaults submission options (`{}` in the source). -/
def emptyOptions : TaskOptions :=
  { delay := none, priority := none, retries := none, retryDelay := none, timeout := none }

theorem addTask_spec_witness :
    (∀ t ∈ demoService.tasks, t.id < demoService.nextId) ∧
    (getTaskStatus (admitTask demoService "noop" emptyOptions 42) 0).map (fun t => t.status)
      = some Status.pending ∧
    (getTaskStatus (admitTask demoService "noop" emptyOptions 42) 0).map
        (fun t => t.options.retries) = some 3 := by
  have h := addTask_spec demoService "noop" emptyOptions 42
    (by intro t ht; simp [demoService, mkService] at ht) rfl rfl rfl
  have hok := h.2.2 0 (admitTask demoService "noop" emptyOptions 42) rfl
  rw [hok.2.2.2]
  exact ⟨by intro t ht; simp [demoService, mkService] at ht, rfl, rfl⟩

/-- On a unique-id registry, the bulk purge keeps exactly the unfinished
records. -/
theorem clearCompletedTasks_tasks_eq (s : ServiceState)
    (hnd : (s.tasks.map (fun t => t.id)).Nodup) :
    (clearCompletedTasks s).2.tasks = s.tasks.filter (fun t => !(isFinished t)) := by
  show s.tasks.filter
      (fun t => !(((s.tasks.filter isFinished).map (fun u => u.id)).contains t.id))
    = s.tasks.filter (fun t => !(isFinished t))
  refine List.filter_congr ?_
  intro t ht
  have : ((s.tasks.filter isFinished).map (fun u => u.id)).contains t.id
      = isFinished t := by
    cases hfin : isFinished t with
    | true =>
      have : t.id ∈ (s.tasks.filter isFinished).map (fun u => u.id) :=
        List.mem_map.mpr ⟨t, List.mem_filter.mpr ⟨ht, hfin⟩, rfl⟩
      exact List.elem_iff.mpr this
    | false =>
      cases hc : ((s.tasks.filter isFinished).map (fun u => u.id)).contains t.id
      · rfl
      · exfalso
        obtain ⟨u, hu, huid⟩ := List.mem_map.mp (List.elem_iff.mp hc)
        have humem := List.mem_filter.mp hu
        have : u = t :=
          List.inj_on_of_nodup_map hnd humem.1 ht huid
        rw [this] at humem
        rw [humem.2] at hfin
        exact Bool.noConfusion hfin
  rw [this]

/-- C6: `clearCompletedTasks` removes from a unique-id registry exactly the
records whose status is `completed` or `failed` and returns their count; the
registry afterwards is precisely the original list of `pending`/`running`
records, each present and unmodified. -/
theorem clearCompletedTasks_spec (s : ServiceState)
    (hnd : (s.tasks.map (fun t => t.id)).Nodup) :
    (clearCompletedTasks s).1 = (s.tasks.filter isFinished).length ∧
    (clearCompletedTasks s).2.tasks = s.tasks.filter (fun t => !(isFinished t)) ∧
    (∀ t ∈ s.tasks, isFinished t = true → t ∉ (clearCompletedTasks s).2.tasks) ∧
    (∀ t ∈ s.tasks, isFinished t = false → t ∈ (clearCompletedTasks s).2.tasks) := by
  have hmain := clearCompletedTasks_tasks_eq s hnd
  refine ⟨rfl, hmain, ?_, ?_⟩
  · intro t ht hfin hin
    rw [hmain] at hin
    have := (List.mem_filter.mp hin).2
    rw [hfin] at this
    exact Bool.noConfusion this
  · intro t ht hfin
    rw [hmain]
    exact List.mem_filter.mpr ⟨ht, by rw [hfin]; rfl⟩

/-- A concrete registry holding a pending, a running, a completed and a failed
record, with distinct ids. -/
def clearWitState : ServiceState :=
  { tasks := [{ retryWitTask with id := 20 },
              { retryWitTask with id := 21, status := Status.running, attempts := 1 },
              { retryWitTask with id := 22, status := Status.completed, attempts := 1 },
              failedCexTask]
    maxConcurrentTasks := 5
    defaultRetries := 3
    defaultRetryDelay := 5000
    defaultTimeout := 30000
    isEnabled := true
    isShuttingDown := false
    runningTasks := 1
    workers := 5
    nextId := 23 }

theorem clearCompletedTasks_spec_witness :
    (clearCompletedTasks clearWitState).1 = 2 ∧
    (clearCompletedTasks clearWitState).2.tasks
      = [{ retryWitTask with id := 20 },
         { retryWitTask with id := 21, status := Status.running, attempts := 1 }] := by
  have h := clearCompletedTasks_spec clearWitState (by decide)
  refine ⟨?_, ?_⟩
  · rw [h.1]; decide
  · rw [h.2.1]; decide

/-- C7: per attempt the wrapper invokes the operation exactly once; when the
operation settles strictly before the timeout fires its own result (value or
error) is the attempt's outcome and the timer is cleared before firing; when
the timer fires first the outcome is the `Timeout` error no matter what the
operation would eventually settle to — that settlement is ignored and the
operation is never aborted. -/
theorem executeWithTimeout_spec {α : Type} (run : HandlerRun α) (timeoutMs : Nat) :
    (executeWithTimeout run timeoutMs).handlerInvocations = 1 ∧
    (run.settleAt < timeoutMs →
      (executeWithTimeout run timeoutMs).result = run.outcome ∧
      (executeWithTimeout run timeoutMs).timerClearedBeforeFire = true) ∧
    (timeoutMs ≤ run.settleAt →
      (executeWithTimeout run timeoutMs).result = Except.error (timeoutMessage timeoutMs) ∧
      ∀ o : Except String α,
        (executeWithTimeout { run with outcome := o } timeoutMs).result
          = Except.error (timeoutMessage timeoutMs)) := by
  refine ⟨?_, ?_, ?_⟩
  · unfold executeWithTimeout
    split <;> rfl
  · intro h
    unfold executeWithTimeout
    rw [if_pos h]
    exact ⟨rfl, rfl⟩
  · intro h
    have hn : ¬ run.settleAt < timeoutMs := by omega
    constructor
    · unfold executeWithTimeout
      rw [if_neg hn]
    · intro o
      unfold executeWithTimeout
      rw [if_neg hn]

/-- A handler behaviour settling (successfully) after 50 ms. -/
def slowHandler : HandlerRun Nat := { settleAt := 50, outcome := Except.ok 7 }

theorem executeWithTimeout_spec_witness :
    (executeWithTimeout slowHandler 30).handlerInvocations = 1 ∧
    (executeWithTimeout slowHandler 30).result = Except.error (timeoutMessage 30) ∧
    (executeWithTimeout slowHandler 100).result = Except.ok 7 := by
  have h30 := executeWithTimeout_spec slowHandler 30
  have h100 := executeWithTimeout_spec slowHandler 100
  exact ⟨h30.1, (h30.2.2 (by decide)).1, (h100.2.1 (by decide)).1⟩

/-- C8 (amended): at construction the engine consumes exactly one externally
supplied configuration value — the enabled/disabled feature flag
(`features.asyncTasksEnabled`, defaulting to `false` when the config object is
absent). Maximum concurrency (5), default retry count (3), default retry delay
(5000 ms), default timeout (30000 ms), the poll tick interval (100 ms) and the
completed-record retention window (60000 ms) are hard-coded constants, and two
configurations agreeing on the flag produce identical engines. -/
theorem mkService_config_spec (cfg : Option AppConfig) :
    (mkService cfg).isEnabled
      = (cfg.map (fun c => c.features.asyncTasksEnabled)).getD false ∧
    (mkService cfg).maxConcurrentTasks = 5 ∧
    (mkService cfg).defaultRetries = 3 ∧
    (mkService cfg).defaultRetryDelay = 5000 ∧
    (mkService cfg).defaultTimeout = 30000 ∧
    pollIntervalMs = 100 ∧
    completedRetentionMs = 60000 ∧
    (∀ cfg2 : Option AppConfig,
      (cfg2.map (fun c => c.features.asyncTasksEnabled)).getD false
        = (cfg.map (fun c => c.features.asyncTasksEnabled)).getD false →
      mkService cfg2 = mkService cfg) := by
  refine ⟨rfl, rfl, rfl, rfl, rfl, rfl, rfl, ?_⟩
  intro cfg2 h
  simp only [mkService, h]

/-- `demoConfig` with a different port and monitoring section (flag unchanged). -/
def demoConfigB : AppConfig :=
  { demoConfig with
      port := 9999
      monitoring := { slowQueryThreshold := 1, performanceLogging := true,
                      errorTracking := false, metricsEnabled := false } }

/-- C8 counterexample: two distinct configurations produce byte-identical
engines, whose concurrency limit and defaults are the hard-coded 5/3/5000/30000
— so none of maximum concurrency, retry count, retry delay, timeout, poll
interval or retention is consumed from external configuration. -/
theorem mkService_counterexample :
    demoConfig ≠ demoConfigB ∧
    mkService (some demoConfig) = mkService (some demoConfigB) ∧
    (mkService (some demoConfig)).maxConcurrentTasks = 5 ∧
    (mkService (some demoConfig)).defaultRetries = 3 ∧
    (mkService (some demoConfig)).defaultRetryDelay = 5000 ∧
    (mkService (some demoConfig)).defaultTimeout = 30000 ∧
    pollIntervalMs = 100 ∧
    completedRetentionMs = 60000 := by
  refine ⟨by decide, rfl, rfl, rfl, rfl, rfl, rfl, rfl⟩

/-- Number of `running` records in a registry (the `running` stats field). -/
def runningCount (l : List QueuedTask) : Nat :=
  (l.filter (fun t => t.status == Status.running)).length

theorem applyFailure_id (t : QueuedTask) (now : Nat) : (applyFailure t now).id = t.id := by
  unfold applyFailure
  split <;> rfl

theorem applyFailure_not_running (t : QueuedTask) (now : Nat) :
    ((applyFailure t now).status == Status.running) = false := by
  unfold applyFailure
  split <;> rfl

theorem applyFailure_status_cases (t : QueuedTask) (now : Nat) :
    (applyFailure t now).status = Status.pending ∨
    (applyFailure t now).status = Status.failed := by
  unfold applyFailure
  split
  · exact Or.inl rfl
  · exact Or.inr rfl

/-- `cancelTask` either leaves the state untouched (returning `false`) or
deletes the found not-running, not-completed record. -/
theorem cancelTask_cases (s : ServiceState) (τ : Nat) :
    (cancelTask s τ).2 = s ∨
    ∃ t₀, findTask s.tasks τ = some t₀ ∧
      (t₀.status == Status.running || t₀.status == Status.completed) = false ∧
      (cancelTask s τ).2 = { s with tasks := deleteTask s.tasks τ } := by
  rcases hf : findTask s.tasks τ with _ | t₀
  · left
    simp [cancelTask, hf]
  · cases hg : (t₀.status == Status.running || t₀.status == Status.completed)
    · right
      exact ⟨t₀, rfl, hg, by simp [cancelTask, hf, hg]⟩
    · left
      simp [cancelTask, hf, hg]

/-- Purging finished records does not change which records are `running`. -/
theorem filter_not_finished_running (l : List QueuedTask) :
    (l.filter (fun t => !(isFinished t))).filter (fun t => t.status == Status.running)
      = l.filter (fun t => t.status == Status.running) := by
  induction l with
  | nil => rfl
  | cons a xs ih =>
    by_cases hfin : isFinished a = true
    · have hco : a.status = Status.completed ∨ a.status = Status.failed := by
        simpa [isFinished] using hfin
      have hrun : (a.status == Status.running) = false := by
        rcases hco with h | h <;> rw [h] <;> rfl
      rw [List.filter_cons_of_neg (by simp [hfin]),
        List.filter_cons_of_neg (by simp [hrun])]
      exact ih
    · have hfin2 : isFinished a = false := by
        cases h : isFinished a
        · rfl
        · exact absurd h hfin
      rw [List.filter_cons_of_pos (by simp [hfin2])]
      cases hrun : (a.status == Status.running)
      · rw [List.filter_cons_of_neg (by simp [hrun]),
          List.filter_cons_of_neg (by simp [hrun])]
        exact ih
      · simp only [List.filter_cons, hrun, eq_self_iff_true, if_true]
        exact congrArg (List.cons a) ih

/-- The representation invariant of a service state: registry ids are unique
and below the id counter, the number of `running` records equals the in-flight
counter, and the counter respects the concurrency limit. -/
structure Inv (s : ServiceState) : Prop where
  idsBound : ∀ t ∈ s.tasks, t.id < s.nextId
  idsNodup : (s.tasks.map (fun t => t.id)).Nodup
  runCount : runningCount s.tasks = s.runningTasks
  runBound : s.runningTasks ≤ s.maxConcurrentTasks

theorem mkService_inv (cfg : Option AppConfig) : Inv (mkService cfg) := by
  refine ⟨?_, ?_, ?_, ?_⟩ <;> simp [mkService, runningCount]

theorem step_preserves_inv {s s' : ServiceState} (hs : Inv s) (hstep : Step s s') :
    Inv s' := by
  cases hstep with
  | add name o now hen =>
    refine ⟨?_, ?_, ?_, ?_⟩
    · intro u hu
      rcases List.mem_append.mp hu with h | h
      · have := hs.idsBound u h
        show u.id < s.nextId + 1
        omega
      · simp at h
        rw [h]
        show s.nextId < s.nextId + 1
        omega
    · show ((s.tasks ++ [newTask s name o now]).map (fun u => u.id)).Nodup
      rw [List.map_append]
      refine List.Nodup.append hs.idsNodup (List.nodup_singleton _) ?_
      intro a ha hb
      simp [newTask] at hb
      obtain ⟨u, hu, huid⟩ := List.mem_map.mp ha
      have := hs.idsBound u hu
      omega
    · show runningCount (s.tasks ++ [newTask s name o now]) = s.runningTasks
      simp only [runningCount, List.filter_append, List.length_append]
      have : (List.filter (fun t => t.status == Status.running) [newTask s name o now])
          = [] := rfl
      rw [this]
      simpa [runningCount] using hs.runCount
    · exact hs.runBound
  | claim now t l₁ l₂ hroom hsel hsplit =>
    have hpend := getNextTask_pending hsel
    have hrc := hs.runCount
    rw [hsplit] at hrc
    refine ⟨?_, ?_, ?_, ?_⟩
    · intro u hu
      rcases List.mem_append.mp hu with h | h
      · exact hs.idsBound u (by rw [hsplit]; exact List.mem_append_left _ h)
      · rcases List.mem_cons.mp h with h2 | h2
        · rw [h2]
          exact hs.idsBound t
            (by rw [hsplit]; exact List.mem_append_right _ (List.mem_cons_self _ _))
        · exact hs.idsBound u
            (by rw [hsplit]; exact List.mem_append_right _ (List.mem_cons_of_mem _ h2))
    · show ((l₁ ++ claimTask t now :: l₂).map (fun u => u.id)).Nodup
      have : (l₁ ++ claimTask t now :: l₂).map (fun u => u.id)
          = (l₁ ++ t :: l₂).map (fun u => u.id) := by
        simp [List.map_append]
        rfl
      rw [this, ← hsplit]
      exact hs.idsNodup
    · show runningCount (l₁ ++ claimTask t now :: l₂) = s.runningTasks + 1
      simp only [runningCount, List.filter_append, List.filter_cons] at hrc ⊢
      rw [show ((claimTask t now).status == Status.running) = true from rfl]
      rw [show (t.status == Status.running) = false from by rw [hpend]; rfl] at hrc
      simp at hrc ⊢
      omega
    · show s.runningTasks + 1 ≤ s.maxConcurrentTasks
      omega
  | finishSuccess t l₁ l₂ hsplit hrun =>
    have hrc := hs.runCount
    rw [hsplit] at hrc
    refine ⟨?_, ?_, ?_, ?_⟩
    · intro u hu
      rcases List.mem_append.mp hu with h | h
      · exact hs.idsBound u (by rw [hsplit]; exact List.mem_append_left _ h)
      · rcases List.mem_cons.mp h with h2 | h2
        · rw [h2]
          exact hs.idsBound t
            (by rw [hsplit]; exact List.mem_append_right _ (List.mem_cons_self _ _))
        · exact hs.idsBound u
            (by rw [hsplit]; exact List.mem_append_right _ (List.mem_cons_of_mem _ h2))
    · show ((l₁ ++ applySuccess t :: l₂).map (fun u => u.id)).Nodup
      have : (l₁ ++ applySuccess t :: l₂).map (fun u => u.id)
          = (l₁ ++ t :: l₂).map (fun u => u.id) := by
        simp [List.map_append]
        rfl
      rw [this, ← hsplit]
      exact hs.idsNodup
    · show runningCount (l₁ ++ applySuccess t :: l₂) = s.runningTasks - 1
      simp only [runningCount, List.filter_append, List.filter_cons] at hrc ⊢
      rw [show ((applySuccess t).status == Status.running) = false from rfl]
      rw [show (t.status == Status.running) = true from by rw [hrun]; rfl] at hrc
      simp at hrc ⊢
      omega
    · have := hs.runBound
      show s.runningTasks - 1 ≤ s.maxConcurrentTasks
      omega
  | finishFailure t l₁ l₂ now hsplit hrun =>
    have hrc := hs.runCount
    rw [hsplit] at hrc
    refine ⟨?_, ?_, ?_, ?_⟩
    · intro u hu
      rcases List.mem_append.mp hu with h | h
      · exact hs.idsBound u (by rw [hsplit]; exact List.mem_append_left _ h)
      · rcases List.mem_cons.mp h with h2 | h2
        · rw [h2, applyFailure_id]
          exact hs.idsBound t
            (by rw [hsplit]; exact List.mem_append_right _ (List.mem_cons_self _ _))
        · exact hs.idsBound u
            (by rw [hsplit]; exact List.mem_append_right _ (List.mem_cons_of_mem _ h2))
    · show ((l₁ ++ applyFailure t now :: l₂).map (fun u => u.id)).Nodup
      have : (l₁ ++ applyFailure t now :: l₂).map (fun u => u.id)
          = (l₁ ++ t :: l₂).map (fun u => u.id) := by
        simp [List.map_append, applyFailure_id]
      rw [this, ← hsplit]
      exact hs.idsNodup
    · show runningCount (l₁ ++ applyFailure t now :: l₂) = s.runningTasks - 1
      simp only [runningCount, List.filter_append, List.filter_cons] at hrc ⊢
      rw [applyFailure_not_running]
      rw [show (t.status == Status.running) = true from by rw [hrun]; rfl] at hrc
      simp at hrc ⊢
      omega
    · have := hs.runBound
      show s.runningTasks - 1 ≤ s.maxConcurrentTasks
      omega
  | cancel τ =>
    rcases cancelTask_cases s τ with heq | ⟨t₀, hf, hg, heq⟩
    · rw [heq]
      exact hs
    · rw [heq]
      have hmem : t₀ ∈ s.tasks := List.mem_of_find?_eq_some hf
      have hid : t₀.id = τ := by simpa using List.find?_some hf
      have hfil := filter_id_unique hs.idsNodup hmem hid
      have huniq : ∀ u ∈ s.tasks, u.id = τ → u = t₀ := by
        intro u hu hui
        have : u ∈ s.tasks.filter (fun v => v.id == τ) :=
          List.mem_filter.mpr ⟨hu, by simp [hui]⟩
        rw [hfil] at this
        simpa using this
      refine ⟨?_, ?_, ?_, ?_⟩
      · intro u hu
        exact hs.idsBound u (List.mem_filter.mp hu).1
      · exact List.Nodup.sublist (List.Sublist.map _ (List.filter_sublist _)) hs.idsNodup
      · show runningCount (deleteTask s.tasks τ) = s.runningTasks
        show ((deleteTask s.tasks τ).filter (fun t => t.status == Status.running)).length
          = s.runningTasks
        rw [filter_deleteTask_of_none (fun u hu hui => by
          rw [huniq u hu hui]
          simp only [Bool.or_eq_false_iff] at hg
          exact hg.1)]
        exact hs.runCount
      · exact hs.runBound
  | clearFinished =>
    have htasks := clearCompletedTasks_tasks_eq s hs.idsNodup
    refine ⟨?_, ?_, ?_, ?_⟩
    · intro u hu
      rw [htasks] at hu
      exact hs.idsBound u (List.mem_filter.mp hu).1
    · show ((clearCompletedTasks s).2.tasks.map (fun u => u.id)).Nodup
      rw [htasks]
      exact List.Nodup.sublist (List.Sublist.map _ (List.filter_sublist _)) hs.idsNodup
    · show runningCount (clearCompletedTasks s).2.tasks = s.runningTasks
      rw [htasks]
      show ((s.tasks.filter (fun t => !(isFinished t))).filter
        (fun t => t.status == Status.running)).length = s.runningTasks
      rw [filter_not_finished_running]
      exact hs.runCount
    · exact hs.runBound
  | reap t l₁ l₂ hsplit hdone =>
    have hmem : t ∈ s.tasks := by
      rw [hsplit]
      exact List.mem_append_right _ (List.mem_cons_self _ _)
    have hfil := filter_id_unique hs.idsNodup hmem rfl
    have huniq : ∀ u ∈ s.tasks, u.id = t.id → u = t := by
      intro u hu hui
      have : u ∈ s.tasks.filter (fun v => v.id == t.id) :=
        List.mem_filter.mpr ⟨hu, by simp [hui]⟩
      rw [hfil] at this
      simpa using this
    refine ⟨?_, ?_, ?_, ?_⟩
    · intro u hu
      exact hs.idsBound u (List.mem_filter.mp hu).1
    · exact List.Nodup.sublist (List.Sublist.map _ (List.filter_sublist _)) hs.idsNodup
    · show runningCount (deleteTask s.tasks t.id) = s.runningTasks
      show ((deleteTask s.tasks t.id).filter (fun u => u.status == Status.running)).length
        = s.runningTasks
      rw [filter_deleteTask_of_none (fun u hu hui => by
        rw [huniq u hu hui, hdone]
        rfl)]
      exact hs.runCount
    · exact hs.runBound

theorem reachable_inv {cfg : Option AppConfig} {s : ServiceState}
    (h : Reachable cfg s) : Inv s := by
  induction h with
  | init => exact mkService_inv cfg
  | step _ hstep ih => exact step_preserves_inv ih hstep

/-- C4: in every state reachable from construction, the number of `running`
records equals the global in-flight counter and never exceeds the configured
maximum concurrency. The in-flight check and the claim (mark running, bump
`attempts`, stamp `lastAttempt`, bump the counter) are one `Step.claim` — a
single synchronous block of `processNextTask` with no `await` inside, which is
why no interleaving of the pollers can break the bound. -/
theorem running_bounded (cfg : Option AppConfig) (s : ServiceState)
    (h : Reachable cfg s) :
    (getQueueStats s).running = s.runningTasks ∧
    s.runningTasks ≤ s.maxConcurrentTasks :=
  ⟨(reachable_inv h).runCount, (reachable_inv h).runBound⟩

theorem running_bounded_witness :
    (getQueueStats (mkService (some demoConfig))).running
      = (mkService (some demoConfig)).runningTasks ∧
    (mkService (some demoConfig)).runningTasks
      ≤ (mkService (some demoConfig)).maxConcurrentTasks :=
  running_bounded (some demoConfig) (mkService (some demoConfig)) Reachable.init

/-- C9: across any single engine step — hence any sequence of them — a record
present afterwards either already existed with the same id and status, or came
from a record with the same id along one of the allowed edges
pending→running, running→completed, running→pending, running→failed, or is a
freshly admitted `pending` record with `attempts = 0`. No other status change
ever happens. -/
theorem status_transitions (s s' : ServiceState) (hstep : Step s s') :
    ∀ t' ∈ s'.tasks,
      (∃ t ∈ s.tasks, t.id = t'.id ∧
        (t.status = t'.status ∨ StatusEdge t.status t'.status)) ∨
      (t'.status = Status.pending ∧ t'.attempts = 0) := by
  cases hstep with
  | add name o now hen =>
    intro t' ht'
    rcases List.mem_append.mp ht' with h | h
    · exact Or.inl ⟨t', h, rfl, Or.inl rfl⟩
    · right
      simp at h
      rw [h]
      exact ⟨rfl, rfl⟩
  | claim now t l₁ l₂ hroom hsel hsplit =>
    intro t' ht'
    rcases List.mem_append.mp ht' with h | h
    · exact Or.inl ⟨t', (by rw [hsplit]; exact List.mem_append_left _ h), rfl, Or.inl rfl⟩
    · rcases List.mem_cons.mp h with h2 | h2
      · left
        refine ⟨t, (by rw [hsplit]; exact List.mem_append_right _ (List.mem_cons_self _ _)),
          ?_, ?_⟩
        · rw [h2]
          rfl
        · right
          rw [h2]
          exact Or.inl ⟨getNextTask_pending hsel, rfl⟩
      · exact Or.inl ⟨t', (by rw [hsplit]; exact List.mem_append_right _ (List.mem_cons_of_mem _ h2)), rfl, Or.inl rfl⟩
  | finishSuccess t l₁ l₂ hsplit hrun =>
    intro t' ht'
    rcases List.mem_append.mp ht' with h | h
    · exact Or.inl ⟨t', (by rw [hsplit]; exact List.mem_append_left _ h), rfl, Or.inl rfl⟩
    · rcases List.mem_cons.mp h with h2 | h2
      · left
        refine ⟨t, (by rw [hsplit]; exact List.mem_append_right _ (List.mem_cons_self _ _)),
          ?_, ?_⟩
        · rw [h2]
          rfl
        · right
          rw [h2]
          exact Or.inr ⟨hrun, Or.inl rfl⟩
      · exact Or.inl ⟨t', (by rw [hsplit]; exact List.mem_append_right _ (List.mem_cons_of_mem _ h2)), rfl, Or.inl rfl⟩
  | finishFailure t l₁ l₂ now hsplit hrun =>
    intro t' ht'
    rcases List.mem_append.mp ht' with h | h
    · exact Or.inl ⟨t', (by rw [hsplit]; exact List.mem_append_left _ h), rfl, Or.inl rfl⟩
    · rcases List.mem_cons.mp h with h2 | h2
      · left
        refine ⟨t, (by rw [hsplit]; exact List.mem_append_right _ (List.mem_cons_self _ _)),
          ?_, ?_⟩
        · rw [h2, applyFailure_id]
        · right
          rw [h2]
          rcases applyFailure_status_cases t now with hc | hc
          · exact Or.inr ⟨hrun, Or.inr (Or.inl hc)⟩
          · exact Or.inr ⟨hrun, Or.inr (Or.inr hc)⟩
      · exact Or.inl ⟨t', (by rw [hsplit]; exact List.mem_append_right _ (List.mem_cons_of_mem _ h2)), rfl, Or.inl rfl⟩
  | cancel τ =>
    intro t' ht'
    rcases cancelTask_cases s τ with heq | ⟨t₀, hf, hg, heq⟩
    · rw [heq] at ht'
      exact Or.inl ⟨t', ht', rfl, Or.inl rfl⟩
    · rw [heq] at ht'
      exact Or.inl ⟨t', (List.mem_filter.mp ht').1, rfl, Or.inl rfl⟩
  | clearFinished =>
    intro t' ht'
    have : t' ∈ s.tasks := by
      have := List.mem_filter.mp ht'
      exact this.1
    exact Or.inl ⟨t', this, rfl, Or.inl rfl⟩
  | reap t l₁ l₂ hsplit hdone =>
    intro t' ht'
    exact Or.inl ⟨t', (List.mem_filter.mp ht').1, rfl, Or.inl rfl⟩

theorem status_transitions_witness :
    (∃ t ∈ demoService.tasks, t.id = (newTask demoService "job" emptyOptions 0).id ∧
      (t.status = (newTask demoService "job" emptyOptions 0).status ∨
        StatusEdge t.status (newTask demoService "job" emptyOptions 0).status)) ∨
    ((newTask demoService "job" emptyOptions 0).status = Status.pending ∧
      (newTask demoService "job" emptyOptions 0).attempts = 0) := by
  have h := status_transitions demoService (admitTask demoService "job" emptyOptions 0)
    (Step.add demoService "job" emptyOptions 0 rfl)
  exact h (newTask demoService "job" emptyOptions 0) (by simp [admitTask])

end AsyncTask
